import Mathlib

/-!
# Shallow embedding of the notifier delivery pipeline

This file embeds the core of the `hyperboard/notifier` service and proves the
specification claims about it:

* `TelegramNotifier.truncateMessage` (outbound text truncation, `src/index.ts`),
* `QueueService` (`addToQueue`, `processQueue`, `getRetryDelay`,
  `getQueueStatus`, `src/services/MetricsCache.ts`),
* `TelegramNotifier.startPolling` (update ingestion loop, `src/index.ts`),
* `MetricsCache` (`updateMetrics` / `formatMetrics`, single-snapshot variant
  wired into the bot).

JavaScript strings are embedded as `List Char` (sequences of code units),
timestamps (`Date`) as `Int` milliseconds, and JS `number` counters as `Int`.
Environment inputs (`new Date()`, `crypto.randomUUID()`, the outcome of a
transport send, the inbound update feed) are passed as explicit parameters.
-/

namespace Notifier

/-! ## Message truncation (`TelegramNotifier.truncateMessage`) -/

/-- `MAX_LENGTH` from `truncateMessage`. -/
def MAX_LENGTH : Nat := 4096

/-- The visible truncation marker appended by `truncateMessage`
(the 24-character string starting with a newline). -/
def truncationMarker : List Char := "\n... [message truncated]".data

/-- `truncateMessage(message)`: if the text exceeds `MAX_LENGTH`, it is cut to
`MAX_LENGTH - 100` characters (`substring(0, MAX_LENGTH - 100)`) and the
truncation marker is appended; otherwise the text is returned unchanged. -/
def truncateMessage (message : List Char) : List Char :=
  if message.length > MAX_LENGTH then
    message.take (MAX_LENGTH - 100) ++ truncationMarker
  else message

/-! ## Delivery queue (`QueueService`) -/

/-- The payload of a queued message: `{ chat_id, text, parse_mode? }`. -/
structure Payload where
  chat_id : String
  text : String
  parse_mode : Option String
deriving DecidableEq

/-- The `type` field of a queued message: `"message" | "metrics"`. -/
inductive MsgKind where
  | message
  | metrics
deriving DecidableEq

/-- `QueuedMessage` from `QueueService`.  `lastAttempt` and `createdAt` are
`Date` values, embedded as `Int` milliseconds; `lastAttempt` is optional. -/
structure QueuedMessage where
  id : String
  kind : MsgKind
  payload : Payload
  attempts : Nat
  lastAttempt : Option Int
  createdAt : Int
deriving DecidableEq

/-- `maxAttempts` of `QueueService`. -/
def maxAttempts : Nat := 10

/-- `retryDelays` of `QueueService`: 1s, 5s, 30s, 1m, 5m, 15m, 1h, in ms. -/
def retryDelays : List Int :=
  [1000, 5000, 30000, 60000, 300000, 900000, 3600000]

/-- `getRetryDelay(attempts)`: index `Math.min(attempts - 1, length - 1)` into
`retryDelays`.  In JS an out-of-range (negative) index yields `undefined`,
embedded here as `none`; a defined table entry is `some`. -/
def getRetryDelay? (attempts : Nat) : Option Int :=
  let index : Int := min ((attempts : Int) - 1) ((retryDelays.length : Int) - 1)
  if index < 0 then none else retryDelays[index.toNat]?

/-- The guard of the requeue branch in `processQueue`: a message is put back
untouched when `lastAttempt` is set and `now - lastAttempt < delay`.  The inner
`none` case mirrors JS semantics: a comparison against `undefined` is false, so
the guard fails and the message is treated as ready. -/
def notReady (now : Int) (m : QueuedMessage) : Bool :=
  match m.lastAttempt with
  | none => false
  | some t =>
    match getRetryDelay? m.attempts with
    | none => false
    | some delay => decide (now - t < delay)

/-- What one loop iteration of `processQueue` does with one message. -/
inductive SendOutcome where
  | skipped (m : QueuedMessage)
  | delivered (m : QueuedMessage)
  | requeued (m : QueuedMessage)
  | dropped (m : QueuedMessage)
deriving DecidableEq

/-- One iteration of the `for` loop in `processQueue`: a not-ready message is
requeued untouched; otherwise `sendMessage(payload)` is attempted.  On failure
with `attempts < maxAttempts`, the message is requeued with `attempts + 1` and
`lastAttempt = now`; on failure at the ceiling, it is dropped (and reported
with its id and attempt count); on success it leaves the queue.  `sendOk`
models the environment: whether the transport accepts a given payload now. -/
def stepMessage (sendOk : Payload → Bool) (now : Int) (m : QueuedMessage) :
    SendOutcome :=
  if notReady now m then .skipped m
  else if sendOk m.payload then .delivered m
  else if m.attempts < maxAttempts then
    .requeued { m with attempts := m.attempts + 1, lastAttempt := some now }
  else .dropped m

/-- The observable result of one drain pass: the rebuilt queue, the payloads
passed to `sendMessage` (in order), the delivered messages, and the messages
dropped at the attempt ceiling (the permanent-failure report, carrying the
message id and final attempt count that the code logs). -/
structure DrainResult where
  queue : List QueuedMessage
  attempted : List Payload
  delivered : List QueuedMessage
  dropped : List QueuedMessage
deriving DecidableEq

/-- Fold one message outcome into the drain bookkeeping (the code pushes
requeued messages back in iteration order). -/
def applyOutcome (o : SendOutcome) (r : DrainResult) : DrainResult :=
  match o with
  | .skipped m => { r with queue := m :: r.queue }
  | .delivered m =>
    { r with attempted := m.payload :: r.attempted, delivered := m :: r.delivered }
  | .requeued m =>
    { r with queue := m :: r.queue, attempted := m.payload :: r.attempted }
  | .dropped m =>
    { r with attempted := m.payload :: r.attempted, dropped := m :: r.dropped }

/-- The `for` loop of `processQueue` over the snapshot `[...this.queue]`. -/
def drainList (sendOk : Payload → Bool) (now : Int) :
    List QueuedMessage → DrainResult
  | [] => ⟨[], [], [], []⟩
  | m :: rest => applyOutcome (stepMessage sendOk now m) (drainList sendOk now rest)

/-- The mutable state of `QueueService`: `this.queue` and `this.isProcessing`. -/
structure QueueState where
  queue : List QueuedMessage
  isProcessing : Bool
deriving DecidableEq

/-- `processQueue()`: returns immediately when a pass is in flight or the queue
is empty; otherwise snapshots the queue, clears it, drains the snapshot, and
ends with `isProcessing = false` (the `finally` block).  The second component
is the observable trace of the pass. -/
def processQueue (sendOk : Payload → Bool) (now : Int) (s : QueueState) :
    QueueState × DrainResult :=
  if s.isProcessing || s.queue.isEmpty then (s, ⟨[], [], [], []⟩)
  else
    let r := drainList sendOk now s.queue
    ({ queue := r.queue, isProcessing := false }, r)

/-- `addToQueue(type, payload)`: appends a fresh message with `attempts = 0`
and no `lastAttempt`.  The generated id (`crypto.randomUUID()`) and the
`createdAt` timestamp are environment inputs, passed explicitly. -/
def addToQueue (s : QueueState) (id : String) (kind : MsgKind)
    (payload : Payload) (now : Int) : QueueState :=
  { s with queue := s.queue ++ [⟨id, kind, payload, 0, none, now⟩] }

/-- The record returned by `getQueueStatus()`.  `countOfKind` embeds the
`messagesByType` reduce (an absent key reads as count 0). -/
structure QueueStatus where
  totalMessages : Nat
  countOfKind : MsgKind → Nat
  oldestMessage : Option Int

/-- `getQueueStatus()`. -/
def getQueueStatus (s : QueueState) : QueueStatus where
  totalMessages := s.queue.length
  countOfKind k := (s.queue.filter (fun m => m.kind == k)).length
  oldestMessage := s.queue.head?.map (fun m => m.createdAt)

/-- A history of queue operations: `enqueue` is one `addToQueue` call, `drain`
is one completed `processQueue` pass (the 10-second tick or the nudge after an
enqueue). -/
inductive QueueOp where
  | enqueue (id : String) (kind : MsgKind) (payload : Payload) (now : Int)
  | drain (sendOk : Payload → Bool) (now : Int)

/-- Running counters over a history: the queue state plus how many messages
were enqueued, delivered, and permanently dropped. -/
structure RunStats where
  state : QueueState
  enqueued : Nat
  deliveredCount : Nat
  droppedCount : Nat

/-- Apply one operation to the running counters. -/
def runOp (st : RunStats) : QueueOp → RunStats
  | .enqueue id k p now =>
    { st with state := addToQueue st.state id k p now, enqueued := st.enqueued + 1 }
  | .drain sendOk now =>
    { state := (processQueue sendOk now st.state).1
      enqueued := st.enqueued
      deliveredCount :=
        st.deliveredCount + (processQueue sendOk now st.state).2.delivered.length
      droppedCount :=
        st.droppedCount + (processQueue sendOk now st.state).2.dropped.length }

/-- The initial `QueueService` state: empty queue, not processing. -/
def initialStats : RunStats := ⟨⟨[], false⟩, 0, 0, 0⟩

/-- Run a whole history of operations from the initial state. -/
def runOps (ops : List QueueOp) : RunStats := ops.foldl runOp initialStats

/-- The implicit invariant behind `getRetryDelay` index safety: whenever
`lastAttempt` is set, `attempts` was incremented in the same step, so it is
at least 1. -/
def WFMessage (m : QueuedMessage) : Prop := m.lastAttempt.isSome → 1 ≤ m.attempts

instance : DecidablePred WFMessage := fun m => by unfold WFMessage; infer_instance

/-- All messages in the queue satisfy `WFMessage`. -/
def WFQueue (s : QueueState) : Prop := ∀ m ∈ s.queue, WFMessage m

instance : DecidablePred WFQueue := fun s => by unfold WFQueue; infer_instance

/-! ## Update ingestion loop (`TelegramNotifier.startPolling`)

Updates are identified by their `update_id`; `handleUpdate` is modelled by the
oracle `failAt : Nat → Bool` telling which updates raise an error while being
handled.  The loop body is
`offset = update.update_id + 1; await this.handleUpdate(update);`;
an error aborts the current batch (the `catch` in `poll`), and `poll()` is
invoked again afterwards in either case.  `pollLoop` iterates successive polls
until no pending updates remain, with explicit fuel (the real loop long-polls
forever; we observe the dispatch trace up to quiescence). -/

/-- One batch of the `for` loop in `poll`: for each update, the cursor is set
to `update_id + 1` first, then the update is dispatched to `handleUpdate`; if
handling fails, the batch aborts with the cursor already advanced.  Returns
the new offset and the update ids dispatched to command handling. -/
def runBatch (failAt : Nat → Bool) : List Nat → Nat → Nat × List Nat
  | [], offset => (offset, [])
  | u :: rest, _offset =>
    if failAt u then (u + 1, [u])
    else
      let r := runBatch failAt rest (u + 1)
      (r.1, u :: r.2)

/-- Modelled from the spec: the cursor discipline the specification describes
(set `offset = update_id + 1` strictly AFTER the update has been fully
processed), for comparison with `runBatch`.  On a handling failure the cursor
is left at its previous value, so the failed update would be re-fetched. -/
def runBatchSpec (failAt : Nat → Bool) : List Nat → Nat → Nat × List Nat
  | [], offset => (offset, [])
  | u :: rest, offset =>
    if failAt u then (offset, [u])
    else
      let r := runBatchSpec failAt rest (u + 1)
      (r.1, u :: r.2)

/-- `getUpdates(offset)`: the transport returns the pending updates with
identifier at least `offset` (identifiers strictly increasing). -/
def getUpdates (upds : List Nat) (offset : Nat) : List Nat :=
  upds.filter (fun u => decide (offset ≤ u))

/-- Successive invocations of `poll()`: fetch the pending batch, run it, and
poll again from the new offset (also after an error).  Stops when no updates
are pending or the fuel runs out.  Returns the final offset and the
concatenated dispatch trace. -/
def pollLoop (failAt : Nat → Bool) (upds : List Nat) : Nat → Nat → Nat × List Nat
  | offset, 0 => (offset, [])
  | offset, fuel + 1 =>
    if (getUpdates upds offset).isEmpty then (offset, [])
    else
      let r := runBatch failAt (getUpdates upds offset) offset
      let rl := pollLoop failAt upds r.1 fuel
      (rl.1, r.2 ++ rl.2)

/-! ## Metrics cache (`MetricsCache`, single-snapshot variant used by the bot) -/

/-- The eight numeric counters POSTed to `/metrics`. -/
structure DashboardCounters where
  totalBoards : Int
  newBoardsToday : Int
  totalUsers : Int
  newUsersToday : Int
  totalBoardEvents : Int
  firstPaymentsToday : Int
  renewalsToday : Int
  totalPayingUsers : Int
deriving DecidableEq

/-- `DashboardMetrics`: the counters plus the `lastUpdated` stamp. -/
structure DashboardMetrics extends DashboardCounters where
  lastUpdated : Int
deriving DecidableEq

/-- `this.metrics` starts as `null`. -/
def initialMetrics : Option DashboardMetrics := none

/-- `updateMetrics(metrics)`: replaces the snapshot wholesale and stamps
`lastUpdated` with the current time (an environment input). -/
def updateMetrics (counters : DashboardCounters) (now : Int) :
    Option DashboardMetrics :=
  some { counters with lastUpdated := now }

/-- The literal returned by `formatMetrics` when no snapshot exists. -/
def noDataMessage : List Char :=
  ("No metrics data available yet. " ++
    "Metrics are updated every 12 hours at 11:00 and 23:00.").data

/-- Decimal rendering of a JS number interpolated into a template literal. -/
def renderInt (n : Int) : List Char := (toString n).data

/-- `formatMetrics()`: a pure rendering of the cache.  With no snapshot it
returns the fixed no-data message; otherwise the template literal, embedded as
the concatenation of its fixed chunks and interpolated fields.  The
locale-dependent date rendering (`toLocaleString`) is the parameter
`fmtDate`. -/
def formatMetrics (fmtDate : Int → List Char) (cache : Option DashboardMetrics) :
    List Char :=
  match cache with
  | none => noDataMessage
  | some m =>
    List.flatten
      [("📊 Dashboard Metrics (Last updated: ").data, fmtDate m.lastUpdated,
        ("):\n• Total Boards: ").data, renderInt m.totalBoards,
        ("\n• New Boards Today: ").data, renderInt m.newBoardsToday,
        ("\n• Total Users: ").data, renderInt m.totalUsers,
        ("\n• New Users Today: ").data, renderInt m.newUsersToday,
        ("\n• Total Board Events: ").data, renderInt m.totalBoardEvents,
        ("\n• First Payments Today: ").data, renderInt m.firstPaymentsToday,
        ("\n• Renewals Today: ").data, renderInt m.renewalsToday,
        ("\n• Total Paying Users: ").data, renderInt m.totalPayingUsers,
        ("\n\nNote: Metrics are updated every 12 hours at 11:00 and 23:00.").data]

/-! ## Sample values used by the witnesses -/

/-- A sample payload. -/
def samplePayload : Payload := ⟨"chat-1", "hello", none⟩

/-- A payload used in the retry-ceiling scenarios. -/
def cexPayload : Payload := ⟨"chat", "boom", none⟩

/-- A message whose attempts counter is one below the ceiling. -/
def cexMsg9 : QueuedMessage := ⟨"m1", .message, cexPayload, 9, some 0, 0⟩

/-- A message whose attempts counter sits exactly at the ceiling. -/
def cexMsg10 : QueuedMessage := ⟨"m1", .message, cexPayload, 10, some 0, 0⟩

/-- A never-attempted (hence ready) message. -/
def freshMsg : QueuedMessage := ⟨"m2", .message, samplePayload, 0, none, 50⟩

/-- A recently failed message that is not yet ready at time 1200 (delay for one
attempt is 1000 ms and the last attempt was at 1000). -/
def recentMsg : QueuedMessage := ⟨"m3", .metrics, cexPayload, 1, some 1000, 40⟩

end Notifier

namespace Notifier

/-! ## Helper lemmas -/

theorem truncationMarker_length : truncationMarker.length = 24 := by decide

theorem stepMessage_skipped_inv {sendOk : Payload → Bool} {now : Int}
    {m m' : QueuedMessage} (h : stepMessage sendOk now m = .skipped m') :
    m' = m := by
  by_cases hr : notReady now m <;> by_cases hok : sendOk m.payload <;>
    by_cases hm : m.attempts < maxAttempts <;> simp_all [stepMessage]

theorem stepMessage_requeued_inv {sendOk : Payload → Bool} {now : Int}
    {m m' : QueuedMessage} (h : stepMessage sendOk now m = .requeued m') :
    m' = { m with attempts := m.attempts + 1, lastAttempt := some now } := by
  by_cases hr : notReady now m <;> by_cases hok : sendOk m.payload <;>
    by_cases hm : m.attempts < maxAttempts <;> simp_all [stepMessage]

theorem drainList_length (sendOk : Payload → Bool) (now : Int)
    (q : List QueuedMessage) :
    (drainList sendOk now q).queue.length + (drainList sendOk now q).delivered.length
      + (drainList sendOk now q).dropped.length = q.length := by
  induction q with
  | nil => rfl
  | cons m rest ih =>
    rw [drainList]
    rcases h : stepMessage sendOk now m with m' | m' | m' | m' <;>
      simp [applyOutcome] <;> omega

theorem drainList_attempted (sendOk : Payload → Bool) (now : Int)
    (q : List QueuedMessage) :
    (drainList sendOk now q).attempted
      = (q.filter (fun m => !(notReady now m))).map (fun m => m.payload) := by
  induction q with
  | nil => rfl
  | cons m rest ih =>
    rw [drainList]
    by_cases hr : notReady now m
    · simp [stepMessage, hr, applyOutcome, ih, List.filter_cons]
    · have hr' : notReady now m = false := by simpa using hr
      by_cases hs : sendOk m.payload
      · simp [stepMessage, hr', hs, applyOutcome, ih, List.filter_cons]
      · by_cases hm : m.attempts < maxAttempts
        · simp [stepMessage, hr', hs, hm, applyOutcome, ih, List.filter_cons]
        · simp [stepMessage, hr', hs, hm, applyOutcome, ih, List.filter_cons]

theorem drainList_notReady_sublist (sendOk : Payload → Bool) (now : Int)
    (q : List QueuedMessage) :
    (q.filter (fun m => notReady now m)).Sublist (drainList sendOk now q).queue := by
  induction q with
  | nil => simp [drainList]
  | cons m rest ih =>
    rw [drainList]
    by_cases hr : notReady now m
    · simpa [stepMessage, hr, applyOutcome, List.filter_cons] using ih.cons₂ m
    · have hr' : notReady now m = false := by simpa using hr
      by_cases hs : sendOk m.payload
      · simpa [stepMessage, hr', hs, applyOutcome, List.filter_cons] using ih
      · by_cases hm : m.attempts < maxAttempts
        · simpa [stepMessage, hr', hs, hm, applyOutcome, List.filter_cons] using ih.cons _
        · simpa [stepMessage, hr', hs, hm, applyOutcome, List.filter_cons] using ih

theorem drainList_queue_mem (sendOk : Payload → Bool) (now : Int)
    {q : List QueuedMessage} {m' : QueuedMessage}
    (h : m' ∈ (drainList sendOk now q).queue) :
    ∃ m ∈ q, m'.id = m.id ∧
      (stepMessage sendOk now m = .skipped m' ∨
        stepMessage sendOk now m = .requeued m') := by
  induction q with
  | nil => simp [drainList] at h
  | cons a rest ih =>
    rw [drainList] at h
    cases hs : stepMessage sendOk now a with
    | skipped b =>
      rw [hs] at h
      simp only [applyOutcome, List.mem_cons] at h
      rcases h with rfl | h'
      · obtain rfl : m' = a := stepMessage_skipped_inv hs
        exact ⟨m', List.mem_cons_self m' rest, rfl, Or.inl hs⟩
      · obtain ⟨m, hm, hid, hstep⟩ := ih h'
        exact ⟨m, List.mem_cons_of_mem _ hm, hid, hstep⟩
    | delivered b =>
      rw [hs] at h
      simp only [applyOutcome] at h
      obtain ⟨m, hm, hid, hstep⟩ := ih h
      exact ⟨m, List.mem_cons_of_mem _ hm, hid, hstep⟩
    | requeued b =>
      rw [hs] at h
      simp only [applyOutcome, List.mem_cons] at h
      rcases h with rfl | h'
      · have hb := stepMessage_requeued_inv hs
        refine ⟨a, List.mem_cons_self a rest, ?_, Or.inr hs⟩
        rw [hb]
      · obtain ⟨m, hm, hid, hstep⟩ := ih h'
        exact ⟨m, List.mem_cons_of_mem _ hm, hid, hstep⟩
    | dropped b =>
      rw [hs] at h
      simp only [applyOutcome] at h
      obtain ⟨m, hm, hid, hstep⟩ := ih h
      exact ⟨m, List.mem_cons_of_mem _ hm, hid, hstep⟩

theorem drainList_dropped_mem (sendOk : Payload → Bool) (now : Int)
    {q : List QueuedMessage} {m : QueuedMessage} (hq : m ∈ q)
    (hstep : stepMessage sendOk now m = .dropped m) :
    m ∈ (drainList sendOk now q).dropped := by
  induction q with
  | nil => simp at hq
  | cons a rest ih =>
    rw [drainList]
    rcases List.mem_cons.1 hq with rfl | h'
    · rw [hstep]; simp [applyOutcome]
    · cases hs : stepMessage sendOk now a <;> simp [applyOutcome, ih h']

theorem getRetryDelay_cap (n : Nat) (h : 7 ≤ n) : getRetryDelay? n = some 3600000 := by
  have hmin : min ((n : Int) - 1) ((retryDelays.length : Int) - 1) = 6 := by
    have hlen : (retryDelays.length : Int) - 1 = 6 := by decide
    rw [hlen]; omega
  simp only [getRetryDelay?, hmin]
  decide

theorem getRetryDelay_mono_aux :
    ∀ a, a < 8 → ∀ b, b < 8 → 1 ≤ a → a ≤ b →
      (getRetryDelay? a).isSome ∧ (getRetryDelay? b).isSome ∧
      (getRetryDelay? a).getD 0 ≤ (getRetryDelay? b).getD 0 := by decide

theorem getRetryDelay_le_max (a : Nat) (h : 1 ≤ a) :
    (getRetryDelay? a).isSome ∧ (getRetryDelay? a).getD 0 ≤ 3600000 := by
  rcases le_or_lt a 7 with h7 | h7
  · have haux := getRetryDelay_mono_aux a (by omega) 7 (by omega) h h7
    refine ⟨haux.1, ?_⟩
    have h7c : getRetryDelay? 7 = some 3600000 := getRetryDelay_cap 7 (le_refl 7)
    have hle := haux.2.2
    rwa [h7c] at hle
  · rw [getRetryDelay_cap a (by omega)]
    exact ⟨rfl, by norm_num⟩

theorem getRetryDelay_mono (a b : Nat) (ha : 1 ≤ a) (hab : a ≤ b) :
    ∃ da db, getRetryDelay? a = some da ∧ getRetryDelay? b = some db ∧ da ≤ db := by
  rcases le_or_lt b 7 with hb7 | hb7
  · have h := getRetryDelay_mono_aux a (by omega) b (by omega) ha hab
    obtain ⟨da, hda⟩ := Option.isSome_iff_exists.1 h.1
    obtain ⟨db, hdb⟩ := Option.isSome_iff_exists.1 h.2.1
    exact ⟨da, db, hda, hdb, by simpa [hda, hdb] using h.2.2⟩
  · have h := getRetryDelay_le_max a ha
    obtain ⟨da, hda⟩ := Option.isSome_iff_exists.1 h.1
    exact ⟨da, 3600000, hda, getRetryDelay_cap b (by omega), by simpa [hda] using h.2⟩

theorem getRetryDelay_mem (a : Nat) (ha : 1 ≤ a) :
    ∃ d, getRetryDelay? a = some d ∧ d ∈ retryDelays := by
  rcases le_or_lt a 7 with h7 | h7
  · have haux : ∀ x, x < 8 → 1 ≤ x → (getRetryDelay? x).isSome ∧
        ((getRetryDelay? x).getD 0) ∈ retryDelays := by decide
    have h := haux a (by omega) ha
    obtain ⟨d, hd⟩ := Option.isSome_iff_exists.1 h.1
    exact ⟨d, hd, by simpa [hd] using h.2⟩
  · exact ⟨3600000, getRetryDelay_cap a (by omega), by decide⟩

theorem processQueue_attempted_eq (sendOk : Payload → Bool) (now : Int)
    (s : QueueState) (hp : s.isProcessing = false) :
    (processQueue sendOk now s).2.attempted
      = (s.queue.filter (fun m => !(notReady now m))).map (fun m => m.payload) := by
  by_cases hq : s.queue.isEmpty
  · have hnil : s.queue = [] := List.isEmpty_iff.1 hq
    simp [processQueue, hp, hq, hnil]
  · simp [processQueue, hp, hq, drainList_attempted]

theorem processQueue_notReady_sublist (sendOk : Payload → Bool) (now : Int)
    (s : QueueState) (hp : s.isProcessing = false) :
    (s.queue.filter (fun m => notReady now m)).Sublist
      (processQueue sendOk now s).1.queue := by
  by_cases hq : s.queue.isEmpty
  · have hnil : s.queue = [] := List.isEmpty_iff.1 hq
    simp [processQueue, hp, hq, hnil]
  · simp [processQueue, hp, hq, drainList_notReady_sublist]

theorem processQueue_attempts_fresh (sendOk : Payload → Bool) (now : Int)
    (s : QueueState) (hp : s.isProcessing = false) (id : String) (k : MsgKind)
    (p : Payload) (tC : Int) :
    p ∈ (processQueue sendOk now (addToQueue s id k p tC)).2.attempted := by
  have hp' : (addToQueue s id k p tC).isProcessing = false := hp
  rw [processQueue_attempted_eq sendOk now _ hp']
  apply List.mem_map.2
  refine ⟨⟨id, k, p, 0, none, tC⟩, ?_, rfl⟩
  apply List.mem_filter.2
  refine ⟨by simp [addToQueue], by simp [notReady]⟩

theorem drainList_preserves_WF (sendOk : Payload → Bool) (now : Int)
    {q : List QueuedMessage} (h : ∀ m ∈ q, WFMessage m) :
    ∀ m' ∈ (drainList sendOk now q).queue, WFMessage m' := by
  intro m' hm'
  obtain ⟨m, hm, hid, hstep⟩ := drainList_queue_mem sendOk now hm'
  rcases hstep with h1 | h1
  · obtain rfl : m' = m := stepMessage_skipped_inv h1
    exact h _ hm
  · have h2 := stepMessage_requeued_inv h1
    subst h2
    intro _
    simp [WFMessage]

theorem runOp_invariant (st : RunStats)
    (h : st.state.queue.length + st.deliveredCount + st.droppedCount = st.enqueued)
    (op : QueueOp) :
    (runOp st op).state.queue.length + (runOp st op).deliveredCount
      + (runOp st op).droppedCount = (runOp st op).enqueued := by
  cases op with
  | enqueue id k p now =>
    simp [runOp, addToQueue]
    omega
  | drain sendOk now =>
    simp only [runOp]
    by_cases hp : st.state.isProcessing
    · simp [processQueue, hp]
      omega
    · by_cases hq : st.state.queue.isEmpty
      · simp [processQueue, hp, hq]
        omega
      · have hlen := drainList_length sendOk now st.state.queue
        simp [processQueue, hp, hq]
        omega

theorem foldl_runOp_invariant (ops : List QueueOp) :
    ∀ st : RunStats,
      st.state.queue.length + st.deliveredCount + st.droppedCount = st.enqueued →
      (ops.foldl runOp st).state.queue.length + (ops.foldl runOp st).deliveredCount
        + (ops.foldl runOp st).droppedCount = (ops.foldl runOp st).enqueued := by
  induction ops with
  | nil => intro st h; simpa using h
  | cons op rest ih =>
    intro st h
    simpa using ih (runOp st op) (runOp_invariant st h op)

theorem runBatch_sorted (failAt : Nat → Bool) (batch : List Nat) (offset : Nat)
    (hsort : List.Sorted (· < ·) batch) (hlb : ∀ u ∈ batch, offset ≤ u) :
    List.Sorted (· < ·) (runBatch failAt batch offset).2 ∧
    (runBatch failAt batch offset).2 ⊆ batch ∧
    (∀ u ∈ (runBatch failAt batch offset).2, u < (runBatch failAt batch offset).1) ∧
    offset ≤ (runBatch failAt batch offset).1 := by
  induction batch generalizing offset with
  | nil => simp [runBatch]
  | cons u rest ih =>
    have hcons := List.sorted_cons.1 hsort
    have hu : offset ≤ u := hlb u (List.mem_cons_self u rest)
    by_cases hf : failAt u
    · simp only [runBatch, hf, if_pos]
      refine ⟨by simp, by simp, by simp, by omega⟩
    · have hih := ih (u + 1) hcons.2 (fun v hv => by have := hcons.1 v hv; omega)
      simp only [runBatch, hf, if_neg, Bool.false_eq_true, not_false_iff]
      refine ⟨?_, ?_, ?_, ?_⟩
      · exact List.sorted_cons.2 ⟨fun v hv => hcons.1 v (hih.2.1 hv), hih.1⟩
      · exact List.cons_subset_cons u hih.2.1
      · intro v hv
        rcases List.mem_cons.1 hv with rfl | hv'
        · have := hih.2.2.2; omega
        · exact hih.2.2.1 v hv'
      · have := hih.2.2.2; omega

theorem pollLoop_sorted (failAt : Nat → Bool) (upds : List Nat)
    (hs : List.Sorted (· < ·) upds) :
    ∀ fuel offset,
      List.Sorted (· < ·) (pollLoop failAt upds offset fuel).2 ∧
      (∀ u ∈ (pollLoop failAt upds offset fuel).2,
        offset ≤ u ∧ u < (pollLoop failAt upds offset fuel).1) ∧
      offset ≤ (pollLoop failAt upds offset fuel).1 := by
  intro fuel
  induction fuel with
  | zero => intro offset; simp [pollLoop]
  | succ n ih =>
    intro offset
    by_cases hb : (getUpdates upds offset).isEmpty
    · simp [pollLoop, hb]
    · have hbatch_sorted : List.Sorted (· < ·) (getUpdates upds offset) :=
        hs.filter _
      have hbatch_lb : ∀ u ∈ getUpdates upds offset, offset ≤ u := by
        intro u hu
        have hdec := (List.mem_filter.1 hu).2
        exact of_decide_eq_true hdec
      have hrb := runBatch_sorted failAt (getUpdates upds offset) offset
        hbatch_sorted hbatch_lb
      have hrl := ih (runBatch failAt (getUpdates upds offset) offset).1
      simp only [pollLoop, hb, if_neg, Bool.false_eq_true, not_false_iff]
      refine ⟨?_, ?_, ?_⟩
      · refine List.pairwise_append.2 ⟨hrb.1, hrl.1, ?_⟩
        intro a ha b hb'
        have h1 := hrb.2.2.1 a ha
        have h2 := (hrl.2.1 b hb').1
        omega
      · intro v hv
        rcases List.mem_append.1 hv with hv' | hv'
        · have h1 := hrb.2.2.1 v hv'
          have h2 := hrb.2.2.2
          have h3 := hrl.2.2
          have h4 := hbatch_lb v (hrb.2.1 hv')
          exact ⟨h4, by omega⟩
        · have h1 := hrl.2.1 v hv'
          have h2 := hrb.2.2.2
          exact ⟨by omega, h1.2⟩
      · have h2 := hrb.2.2.2
        have h3 := hrl.2.2
        omega

theorem flatten_piece_of_mem {α : Type} {l : List (List α)} {x : List α}
    (h : x ∈ l) : x <:+: l.flatten := by
  induction l with
  | nil => simp at h
  | cons a rest ih =>
    rcases List.mem_cons.1 h with rfl | h'
    · exact ⟨[], rest.flatten, by simp⟩
    · obtain ⟨s, t, hst⟩ := ih h'
      exact ⟨a ++ s, t, by simp [← hst, List.append_assoc]⟩

/-! ## The claims -/

/-- Claim C1, counterexample: the specification says a queued text of 5000
characters is sent as exactly 4096 characters; the code produces
3996 + 24 = 4020 characters. -/
theorem truncate_exact_4096_counterexample :
    (truncateMessage (List.replicate 5000 'a')).length ≠ 4096 ∧
    (truncateMessage (List.replicate 5000 'a')).length = 4020 := by
  have h : (truncateMessage (List.replicate 5000 'a')).length = 4020 := by
    norm_num [truncateMessage, MAX_LENGTH, truncationMarker_length,
      List.length_take, List.length_replicate, List.length_append]
  exact ⟨by omega, h⟩

/-- Claim C1, amended: for every outbound text longer than `MAX_LENGTH`
(4096), the truncated text is exactly `MAX_LENGTH - 100 + 24 = 4020`
characters, stays within the 4096 bound, and ends in the visible truncation
marker; texts of at most 4096 characters pass through unchanged. -/
theorem truncate_bounded_marker (message : List Char) :
    (MAX_LENGTH < message.length →
      (truncateMessage message).length = 4020 ∧
      (truncateMessage message).length ≤ MAX_LENGTH ∧
      truncationMarker <:+ truncateMessage message) ∧
    (message.length ≤ MAX_LENGTH → truncateMessage message = message) := by
  constructor
  · intro h
    have hlen : (truncateMessage message).length = 4020 := by
      rw [truncateMessage, if_pos (by omega)]
      rw [List.length_append, List.length_take, truncationMarker_length]
      simp [MAX_LENGTH] at h ⊢
      omega
    refine ⟨hlen, by rw [hlen]; norm_num [MAX_LENGTH], ?_⟩
    rw [truncateMessage, if_pos (by omega)]
    exact List.suffix_append _ _
  · intro h
    rw [truncateMessage, if_neg (by omega)]

/-- Witness for C1 at a 4097-character text and a 2-character text. -/
theorem truncate_bounded_marker_witness :
    ((truncateMessage (List.replicate 4097 'b')).length = 4020 ∧
      (truncateMessage (List.replicate 4097 'b')).length ≤ MAX_LENGTH ∧
      truncationMarker <:+ truncateMessage (List.replicate 4097 'b')) ∧
    truncateMessage "ok".data = "ok".data :=
  ⟨(truncate_bounded_marker (List.replicate 4097 'b')).1
      (by norm_num [MAX_LENGTH]),
   (truncate_bounded_marker "ok".data).2 (by decide)⟩

/-- Claim C2, counterexample: a send failure that makes the attempts counter
reach `maxAttempts` (9 to 10) does NOT remove the message; the message is
requeued with `attempts = 10` and its payload is attempted again in a
subsequent drain pass. -/
theorem queue_ceiling_counterexample :
    (processQueue (fun _ => false) 4000000 ⟨[cexMsg9], false⟩).1.queue
      = [{ cexMsg9 with attempts := 10, lastAttempt := some 4000000 }] ∧
    (processQueue (fun _ => false) 8000000
        (processQueue (fun _ => false) 4000000 ⟨[cexMsg9], false⟩).1).2.attempted
      = [cexPayload] := by decide

/-- Claim C2, amended: a queued message is permanently removed when a send
failure occurs while its attempts counter ALREADY equals `maxAttempts` (10);
at that point it is reported in the dropped list (carrying its id and final
attempt count) and no message with its id remains in the queue, so it appears
in no subsequent drain pass.  The failure that merely raises `attempts` to 10
requeues the message for one final retry. -/
theorem queue_drop_at_ceiling (sendOk : Payload → Bool) (now : Int)
    (s : QueueState) (m : QueuedMessage) (hp : s.isProcessing = false)
    (hm : m ∈ s.queue) (hready : notReady now m = false)
    (hfail : sendOk m.payload = false) (hceil : maxAttempts ≤ m.attempts)
    (huniq : ∀ m' ∈ s.queue, m'.id = m.id → m' = m) :
    m ∈ (processQueue sendOk now s).2.dropped ∧
    ∀ m' ∈ (processQueue sendOk now s).1.queue, m'.id ≠ m.id := by
  have hstep : stepMessage sendOk now m = .dropped m := by
    simp [stepMessage, hready, hfail, Nat.not_lt.2 hceil]
  have hq : ¬ s.queue.isEmpty := by
    intro hq
    rw [List.isEmpty_iff.1 hq] at hm
    simp at hm
  constructor
  · have hd := drainList_dropped_mem sendOk now hm hstep
    simpa [processQueue, hp, hq] using hd
  · intro m' hm' heq
    have hm'' : m' ∈ (drainList sendOk now s.queue).queue := by
      simpa [processQueue, hp, hq] using hm'
    obtain ⟨m0, hm0, hid, hstep0⟩ := drainList_queue_mem sendOk now hm''
    have hm0m : m0 = m := huniq m0 hm0 (by rw [← hid, heq])
    subst hm0m
    rcases hstep0 with h1 | h1 <;> rw [hstep] at h1 <;> simp at h1

/-- Witness for C2 at a concrete one-message queue sitting at the ceiling. -/
theorem queue_drop_at_ceiling_witness :
    cexMsg10 ∈ (processQueue (fun _ => false) 4000000 ⟨[cexMsg10], false⟩).2.dropped ∧
    ∀ m' ∈ (processQueue (fun _ => false) 4000000 ⟨[cexMsg10], false⟩).1.queue,
      m'.id ≠ cexMsg10.id :=
  queue_drop_at_ceiling (fun _ => false) 4000000 ⟨[cexMsg10], false⟩ cexMsg10
    rfl (by decide) (by decide) rfl (by decide) (by decide)

/-- Claim C3, counterexample: the ingestion loop advances the cursor BEFORE
dispatching each update, not after.  With update 6 failing, the code batch
ends at offset 7 (cursor already past the failed update), whereas the cursor
discipline stated by the specification would leave it at 6; consequently, in a
full run over updates 5..7 the failing update 6 is dispatched exactly once and
never reprocessed — the loop skips it instead of redelivering it. -/
theorem ingestion_cursor_counterexample :
    runBatch (fun u => u == 6) [6, 7] 6 = (7, [6]) ∧
    runBatchSpec (fun u => u == 6) [6, 7] 6 = (6, [6]) ∧
    (pollLoop (fun u => u == 6) [5, 6, 7] 5 4).2.count 6 = 1 ∧
    (fun u : Nat => u == 6) 6 = true := by decide

/-- Claim C3, amended: the loop sets `offset = update_id + 1` immediately
BEFORE dispatching the update, so delivery is at-most-once rather than
at-least-once: over any strictly increasing update feed, the dispatch trace is
strictly increasing (hence without duplicates — no update is ever dispatched
twice, in particular a failed update is never reprocessed), and the final
offset is beyond every dispatched update, so none is ever re-fetched.
Updates after a failed one are fetched again on the next poll. -/
theorem ingestion_at_most_once (failAt : Nat → Bool) (upds : List Nat)
    (offset fuel : Nat) (hs : List.Sorted (· < ·) upds) :
    List.Sorted (· < ·) (pollLoop failAt upds offset fuel).2 ∧
    (pollLoop failAt upds offset fuel).2.Nodup ∧
    ∀ u ∈ (pollLoop failAt upds offset fuel).2,
      u < (pollLoop failAt upds offset fuel).1 := by
  have h := pollLoop_sorted failAt upds hs fuel offset
  exact ⟨h.1, h.1.nodup, fun u hu => (h.2.1 u hu).2⟩

/-- Witness for C3 (amended) on the feed [5, 6, 7] with update 6 failing. -/
theorem ingestion_at_most_once_witness :
    List.Sorted (· < ·) (pollLoop (fun u => u == 6) [5, 6, 7] 5 4).2 ∧
    (pollLoop (fun u => u == 6) [5, 6, 7] 5 4).2.Nodup ∧
    ∀ u ∈ (pollLoop (fun u => u == 6) [5, 6, 7] 5 4).2,
      u < (pollLoop (fun u => u == 6) [5, 6, 7] 5 4).1 :=
  ingestion_at_most_once (fun u => u == 6) [5, 6, 7] 5 4 (by decide)

/-- Claim C4: starting at offset 5 on updates [5, 6, 7], the ingestion loop
ends at offset 8 and dispatches 5, 6, 7 to command handling exactly once each,
in ascending order — both when every update handles cleanly and when update 6
raises an error during handling (the error is contained by the catch in
`poll`; update 7 is fetched again on the next poll and still runs once). -/
theorem ingestion_batch_five_six_seven :
    pollLoop (fun u => u == 6) [5, 6, 7] 5 4 = (8, [5, 6, 7]) ∧
    pollLoop (fun _ => false) [5, 6, 7] 5 4 = (8, [5, 6, 7]) := by decide

/-- Claim C5: the retry delay is monotone in the attempt count over positive
attempts, equals the last table entry (3600000 ms) for every attempt count at
or beyond the table length, and in particular agrees at 7 and 100. -/
theorem getRetryDelay_monotone_capped :
    (∀ a b : Nat, 1 ≤ a → a ≤ b →
      ∃ da db, getRetryDelay? a = some da ∧ getRetryDelay? b = some db ∧ da ≤ db) ∧
    (∀ n : Nat, retryDelays.length ≤ n → getRetryDelay? n = some 3600000) ∧
    getRetryDelay? 7 = getRetryDelay? 100 := by
  refine ⟨getRetryDelay_mono, ?_, ?_⟩
  · intro n hn
    have hlen : retryDelays.length = 7 := rfl
    exact getRetryDelay_cap n (hlen ▸ hn)
  · rw [getRetryDelay_cap 7 (le_refl 7), getRetryDelay_cap 100 (by norm_num)]

/-- Witness for C5 at attempts 2 ≤ 5 and at 9 beyond the table. -/
theorem getRetryDelay_monotone_capped_witness :
    (∃ da db, getRetryDelay? 2 = some da ∧ getRetryDelay? 5 = some db ∧ da ≤ db) ∧
    getRetryDelay? 9 = some 3600000 :=
  ⟨getRetryDelay_monotone_capped.1 2 5 (by decide) (by decide),
   getRetryDelay_monotone_capped.2.1 9 (by decide)⟩

/-- Claim C6: in a drain pass, the payloads handed to `sendMessage` are
exactly those of the messages that are ready — never attempted, or past their
backoff — in queue order; not-ready messages survive into the new queue
unchanged (in order, as a sublist); and readiness means precisely
`lastAttempt` absent, or `now - lastAttempt` at least the retry delay for the
current attempt count. -/
theorem drain_ready_characterization (sendOk : Payload → Bool) (now : Int)
    (s : QueueState) (hp : s.isProcessing = false) :
    ((processQueue sendOk now s).2.attempted
        = (s.queue.filter (fun m => !(notReady now m))).map (fun m => m.payload)) ∧
    (s.queue.filter (fun m => notReady now m)).Sublist
      (processQueue sendOk now s).1.queue ∧
    (∀ m : QueuedMessage, m.lastAttempt = none → notReady now m = false) ∧
    (∀ (m : QueuedMessage) (t d : Int), m.lastAttempt = some t →
      getRetryDelay? m.attempts = some d →
      (notReady now m = false ↔ d ≤ now - t)) := by
  refine ⟨processQueue_attempted_eq sendOk now s hp,
    processQueue_notReady_sublist sendOk now s hp, ?_, ?_⟩
  · intro m hm
    simp [notReady, hm]
  · intro m t d hm hd
    simp only [notReady, hm, hd]
    constructor
    · intro h
      have := of_decide_eq_false h
      omega
    · intro h
      apply decide_eq_false
      omega

/-- Witness for C6 on a two-message queue: `freshMsg` is ready (never
attempted) and `recentMsg` is within its backoff window at time 1200. -/
theorem drain_ready_characterization_witness :
    ((processQueue (fun _ => true) 1200 ⟨[freshMsg, recentMsg], false⟩).2.attempted
        = (([freshMsg, recentMsg] : List QueuedMessage).filter
            (fun m => !(notReady 1200 m))).map (fun m => m.payload)) ∧
    (([freshMsg, recentMsg] : List QueuedMessage).filter
        (fun m => notReady 1200 m)).Sublist
      (processQueue (fun _ => true) 1200 ⟨[freshMsg, recentMsg], false⟩).1.queue ∧
    (∀ m : QueuedMessage, m.lastAttempt = none → notReady 1200 m = false) ∧
    (∀ (m : QueuedMessage) (t d : Int), m.lastAttempt = some t →
      getRetryDelay? m.attempts = some d →
      (notReady 1200 m = false ↔ d ≤ 1200 - t)) :=
  drain_ready_characterization (fun _ => true) 1200 ⟨[freshMsg, recentMsg], false⟩ rfl

/-- Claim C7: at most one drain pass is in flight — invoking `processQueue`
while `isProcessing` is true is a no-op returning the state unchanged with an
empty trace (no sends attempted); and a message enqueued meanwhile is picked
up by a later invocation: once the flag is down, any enqueued fresh payload is
attempted by the next pass. -/
theorem processQueue_single_flight (sendOk : Payload → Bool) (now : Int)
    (s : QueueState) (h : s.isProcessing = true) :
    processQueue sendOk now s = (s, ⟨[], [], [], []⟩) ∧
    ∀ (sendOk' : Payload → Bool) (now' : Int) (id : String) (k : MsgKind)
      (p : Payload) (tC : Int),
      p ∈ (processQueue sendOk' now'
            (addToQueue { s with isProcessing := false } id k p tC)).2.attempted := by
  refine ⟨by simp [processQueue, h], ?_⟩
  intro sendOk' now' id k p tC
  exact processQueue_attempts_fresh sendOk' now' _ rfl id k p tC

/-- Witness for C7 on a busy one-message queue state. -/
theorem processQueue_single_flight_witness :
    processQueue (fun _ => true) 500 ⟨[freshMsg], true⟩
      = (⟨[freshMsg], true⟩, ⟨[], [], [], []⟩) ∧
    ∀ (sendOk' : Payload → Bool) (now' : Int) (id : String) (k : MsgKind)
      (p : Payload) (tC : Int),
      p ∈ (processQueue sendOk' now'
            (addToQueue ⟨[freshMsg], false⟩ id k p tC)).2.attempted :=
  processQueue_single_flight (fun _ => true) 500 ⟨[freshMsg], true⟩ rfl

/-- Claim C8: over every finite history of enqueues interleaved with completed
drain passes, `getQueueStatus().totalMessages` equals the number of messages
enqueued minus the number delivered successfully minus the number permanently
dropped at the attempt ceiling. -/
theorem queue_status_conservation (ops : List QueueOp) :
    (getQueueStatus (runOps ops).state).totalMessages
      = (runOps ops).enqueued - (runOps ops).deliveredCount
        - (runOps ops).droppedCount := by
  have h := foldl_runOp_invariant ops initialStats rfl
  simp only [getQueueStatus, runOps] at *
  omega

/-- Claim C9: `formatMetrics` on the initial (never updated) cache returns the
fixed no-data message; after one update, the rendered text contains the
rendering of each of the eight counter fields and of the `lastUpdated` stamp.
The embedding of `formatMetrics` is a pure function of the cache — the source
method only reads `this.metrics` — so it has no side effect on the cache. -/
theorem formatMetrics_fields (fmtDate : Int → List Char) (c : DashboardCounters)
    (now : Int) :
    formatMetrics fmtDate initialMetrics = noDataMessage ∧
    (fmtDate now <:+: formatMetrics fmtDate (updateMetrics c now)) ∧
    (renderInt c.totalBoards <:+: formatMetrics fmtDate (updateMetrics c now)) ∧
    (renderInt c.newBoardsToday <:+: formatMetrics fmtDate (updateMetrics c now)) ∧
    (renderInt c.totalUsers <:+: formatMetrics fmtDate (updateMetrics c now)) ∧
    (renderInt c.newUsersToday <:+: formatMetrics fmtDate (updateMetrics c now)) ∧
    (renderInt c.totalBoardEvents <:+: formatMetrics fmtDate (updateMetrics c now)) ∧
    (renderInt c.firstPaymentsToday <:+: formatMetrics fmtDate (updateMetrics c now)) ∧
    (renderInt c.renewalsToday <:+: formatMetrics fmtDate (updateMetrics c now)) ∧
    (renderInt c.totalPayingUsers <:+: formatMetrics fmtDate (updateMetrics c now)) := by
  refine ⟨rfl, ?_, ?_, ?_, ?_, ?_, ?_, ?_, ?_, ?_⟩ <;>
    (apply flatten_piece_of_mem; simp [updateMetrics, formatMetrics])

/-- Claim C10: the queue invariant that every message with `lastAttempt` set
has `attempts` at least 1 is preserved by `addToQueue` and by `processQueue`
(the counter is incremented in the same step that sets `lastAttempt`), and
under it every retry-delay lookup made for a previously attempted message hits
a defined table entry — `getRetryDelay` never returns undefined there. -/
theorem queue_lastAttempt_invariant (s : QueueState) (sendOk : Payload → Bool)
    (now tC : Int) (id : String) (k : MsgKind) (p : Payload) (m : QueuedMessage)
    (h : WFQueue s) :
    WFQueue (addToQueue s id k p tC) ∧
    WFQueue (processQueue sendOk now s).1 ∧
    (m ∈ s.queue → m.lastAttempt.isSome → 1 ≤ m.attempts ∧
      ∃ d, getRetryDelay? m.attempts = some d ∧ d ∈ retryDelays) := by
  refine ⟨?_, ?_, ?_⟩
  · intro m' hm'
    rcases List.mem_append.1 hm' with h' | h'
    · exact h m' h'
    · simp only [List.mem_singleton] at h'
      subst h'
      intro hs
      simp at hs
  · by_cases hp : s.isProcessing
    · simpa [processQueue, hp] using h
    · by_cases hq : s.queue.isEmpty
      · simpa [processQueue, hp, hq] using h
      · intro m' hm'
        have hm'' : m' ∈ (drainList sendOk now s.queue).queue := by
          simpa [processQueue, hp, hq] using hm'
        exact drainList_preserves_WF sendOk now h m' hm''
  · intro hm hsome
    have h1 : 1 ≤ m.attempts := h m hm hsome
    exact ⟨h1, getRetryDelay_mem m.attempts h1⟩

/-- Witness for C10 on a one-message queue holding a previously attempted
message. -/
theorem queue_lastAttempt_invariant_witness :
    WFQueue (addToQueue ⟨[recentMsg], false⟩ "w1" .message samplePayload 60) ∧
    WFQueue (processQueue (fun _ => false) 2500 ⟨[recentMsg], false⟩).1 ∧
    (recentMsg ∈ (⟨[recentMsg], false⟩ : QueueState).queue →
      recentMsg.lastAttempt.isSome → 1 ≤ recentMsg.attempts ∧
      ∃ d, getRetryDelay? recentMsg.attempts = some d ∧ d ∈ retryDelays) :=
  queue_lastAttempt_invariant ⟨[recentMsg], false⟩ (fun _ => false) 2500 60
    "w1" .message samplePayload recentMsg (by decide)

end Notifier
